import Mathlib

/-
Verification development for a Go parser-combinator library with a small
expression/statement language on top (grammar + tree-walking evaluator).

Modelling conventions:
* Go strings are modelled as `List Char` (`Str`); slicing `input[1:]` is the
  list tail, `input[:1]` a singleton list, and the Go empty string `""` is `[]`.
* A Go `*Node` (a possibly-nil pointer) is `Option Node`; the `Children`
  field `[]*Node` is `List (Option Node)`.
* A `Parser` returns the Go triple `(node *Node, rest string, ok bool)` as
  the structure `PResult`.
* The Go `Some`/`AtLeast` combinators contain unbounded `for` loops that
  diverge when the sub-parser succeeds without consuming input.  They are
  modelled with an explicit iteration budget of `input.length + 1`, which is
  exact whenever every success of the sub-parser strictly consumes input
  (each iteration shortens the input, so at most `length` successes plus one
  final failing probe occur).  Exhausting the budget, which corresponds to
  divergence of the Go loop, is modelled as the generic failure triple
  `(nil, "", false)`.
* The mutually recursive grammar functions (`Program`, `Expression`, `Sum`,
  `Multiplication`, `Unit`, `FunctionCall`, the declarations) are modelled as
  one function `grammar` over a rule identifier, with a fuel parameter that
  decreases on every cross-rule call; the exported entry points supply the
  generous budget `16 * (length + 1)`, ample because each cycle through the
  rules consumes at least one character.
-/

namespace PC

abbrev Str := List Char

/-- Node is the Go AST node: a tag (`Type`), a list of child pointers
(`Children`, each possibly nil) and a literal text value (`Value`). -/
inductive Node where
  | mk (type : String) (children : List (Option Node)) (value : Str)

def Node.type : Node → String
  | .mk t _ _ => t

def Node.children : Node → List (Option Node)
  | .mk _ c _ => c

def Node.value : Node → Str
  | .mk _ _ v => v

/-- PResult is the Go parser return triple `(node *Node, rest string, ok bool)`. -/
structure PResult where
  node : Option Node
  rest : Str
  ok : Bool

/-- Parser is the Go type `func(input string) (node *Node, rest string, ok bool)`. -/
abbrev Parser := Str → PResult

/-- Digit matches one character in the range 0-9, as in the Go source. -/
def Digit : Parser := fun input =>
  match input with
  | c :: rest => if '0' ≤ c ∧ c ≤ '9' then ⟨some (.mk "Char" [] [c]), rest, true⟩
                 else ⟨none, [], false⟩
  | [] => ⟨none, [], false⟩

/-- Character matches exactly the fixed character `chr`, as in the Go source. -/
def Character (chr : Char) : Parser := fun input =>
  match input with
  | c :: rest => if c = chr then ⟨some (.mk "Char" [] [c]), rest, true⟩
                 else ⟨none, [], false⟩
  | [] => ⟨none, [], false⟩

def spanList (p : Char → Bool) : Str → Str × Str
  | [] => ([], [])
  | c :: rest =>
    if p c then
      let (tk, rs) := spanList p rest
      (c :: tk, rs)
    else ([], c :: rest)

/-- Number models the Go `Regex("Number", "-?[0-9]+")` parser: the regexp
engine reports the leftmost match and the combinator requires it to start at
position 0, so the parser succeeds exactly on an optional leading minus sign
followed by at least one digit, matched greedily. -/
def Number : Parser := fun input =>
  match input with
  | '-' :: rest =>
    match spanList Char.isDigit rest with
    | ([], _) => ⟨none, [], false⟩
    | (digits, rs) => ⟨some (.mk "Number" [] ('-' :: digits)), rs, true⟩
  | _ =>
    match spanList Char.isDigit input with
    | ([], _) => ⟨none, [], false⟩
    | (digits, rs) => ⟨some (.mk "Number" [] digits), rs, true⟩

/-- Variable models the Go `Regex("Variable", "[a-zA-Z][a-zA-Z0-9]*")` parser,
anchored at position 0: one ASCII letter followed by greedily matched
letters and digits. -/
def Variable : Parser := fun input =>
  match input with
  | c :: rest =>
    if c.isAlpha then
      let (tk, rs) := spanList Char.isAlphanum rest
      ⟨some (.mk "Variable" [] (c :: tk)), rs, true⟩
    else ⟨none, [], false⟩
  | [] => ⟨none, [], false⟩

/-- ArguementDelimeter models the Go `Regex("ArgumentDelimeter", ",?")`
parser (the misspelling is the source's): it always succeeds, consuming one
comma when present and nothing otherwise. -/
def ArguementDelimeter : Parser := fun input =>
  match input with
  | ',' :: rest => ⟨some (.mk "ArgumentDelimeter" [] [',']), rest, true⟩
  | _ => ⟨some (.mk "ArgumentDelimeter" [] []), input, true⟩

/-- WS models the Go `Regex(Whitespace, " *")` parser: it always succeeds,
greedily consuming spaces (only the space character, per the source regex). -/
def WS : Parser := fun input =>
  let (tk, rs) := spanList (fun c => c = ' ') input
  ⟨some (.mk "Whitespace" [] tk), rs, true⟩

/-- LineDelim models the Go `Regex(Whitespace, "[\n;]*")` parser: it always
succeeds, greedily consuming newline and semicolon characters. -/
def LineDelim : Parser := fun input =>
  let (tk, rs) := spanList (fun c => c = '\n' ∨ c = ';') input
  ⟨some (.mk "Whitespace" [] tk), rs, true⟩

/-- someLoop is the body of the Go `Some` combinator's `for` loop; the fuel
argument bounds the number of iterations, and `none` marks fuel exhaustion,
which corresponds to divergence of the Go loop (the loop state repeats as
soon as an iteration consumes nothing, because parsers are pure). -/
def someLoop (parser : Parser) : Nat → List (Option Node) → Str → Option (List (Option Node) × Str)
  | 0, _, _ => none
  | fuel + 1, children, rest =>
    match parser rest with
    | ⟨parserNode, parserRest, true⟩ => someLoop parser fuel (children ++ [parserNode]) parserRest
    | ⟨_, _, false⟩ => some (children, rest)

/-- Some is the Go zero-or-more repetition combinator: it repeatedly applies
the sub-parser, collecting each success as a child, and returns successfully
at the remainder of the last success once the sub-parser fails.  The budget
`input.length + 1` is exact for strictly consuming sub-parsers; exhausting it
models divergence of the Go loop. -/
def Some (outType : String) (parser : Parser) : Parser := fun input =>
  match someLoop parser (input.length + 1) [] input with
  | some (children, rest) => ⟨some (.mk outType children []), rest, true⟩
  | none => ⟨none, [], false⟩

/-- atLeastLoop is the body of the Go `AtLeast` combinator's `for` loop,
additionally counting successes; `none` marks fuel exhaustion (divergence of
the Go loop). -/
def atLeastLoop (parser : Parser) : Nat → Nat → List (Option Node) → Str → Option (Nat × List (Option Node) × Str)
  | 0, _, _, _ => none
  | fuel + 1, num, children, rest =>
    match parser rest with
    | ⟨parserNode, parserRest, true⟩ => atLeastLoop parser fuel (num + 1) (children ++ [parserNode]) parserRest
    | ⟨_, _, false⟩ => some (num, children, rest)

/-- AtLeast is the Go bounded repetition combinator: like `Some`, but it
fails cleanly when fewer than `minimum` successful applications occurred. -/
def AtLeast (outType : String) (minimum : Nat) (parser : Parser) : Parser := fun input =>
  match atLeastLoop parser (input.length + 1) 0 [] input with
  | some (num, children, rest) =>
    if minimum ≤ num then ⟨some (.mk outType children []), rest, true⟩
    else ⟨none, [], false⟩
  | none => ⟨none, [], false⟩

/-- Or is the Go ordered-choice combinator: it applies each alternative to
the same original input and returns the first success. -/
def Or : List Parser → Parser
  | [] => fun _ => ⟨none, [], false⟩
  | parser :: parsers => fun input =>
    match parser input with
    | ⟨parserNode, parserRest, true⟩ => ⟨parserNode, parserRest, true⟩
    | ⟨_, _, false⟩ => Or parsers input

def thenLoop : List Parser → Str → List (Option Node) → Option (List (Option Node) × Str)
  | [], rest, children => some (children, rest)
  | parser :: parsers, rest, children =>
    match parser rest with
    | ⟨parserNode, parserRest, true⟩ => thenLoop parsers parserRest (children ++ [parserNode])
    | ⟨_, _, false⟩ => none

/-- Then is the Go sequencing combinator: sub-parsers run in order, each from
where the previous left off; any failure fails the whole sequence with the
triple `(nil, "", false)`. -/
def Then (outType : String) (parsers : List Parser) : Parser := fun input =>
  match thenLoop parsers input [] with
  | some (children, rest) => ⟨some (.mk outType children []), rest, true⟩
  | none => ⟨none, [], false⟩

def thenSkippingLoop (skip : Parser) : List Parser → Str → List (Option Node) → Option (List (Option Node) × Str)
  | [], rest, children => some (children, rest)
  | parser :: parsers, rest, children =>
    let rest1 := match skip rest with
      | ⟨_, skipRest, true⟩ => skipRest
      | ⟨_, _, false⟩ => rest
    match parser rest1 with
    | ⟨parserNode, parserRest, true⟩ => thenSkippingLoop skip parsers parserRest (children ++ [parserNode])
    | ⟨_, _, false⟩ => none

/-- ThenSkipping is the Go sequencing combinator that attempts the skip
parser before each element, advancing past it only when it succeeds; the skip
result is discarded, never appended as a child. -/
def ThenSkipping (outType : String) (skip : Parser) (parsers : List Parser) : Parser := fun input =>
  match thenSkippingLoop skip parsers input [] with
  | some (children, rest) => ⟨some (.mk outType children []), rest, true⟩
  | none => ⟨none, [], false⟩

/-- Skipping is the Go combinator that attempts the skip parser once and then
delegates to `parser`, returning its result unchanged. -/
def Skipping (skip : Parser) (parser : Parser) : Parser := fun input =>
  match skip input with
  | ⟨_, skipRest, true⟩ => parser skipRest
  | ⟨_, _, false⟩ => parser input

/-- As is the Go tagging combinator of the richest source variant: it always
allocates a node carrying the new tag whose sole child is the sub-parser's
returned node pointer (nil on failure), and forwards the sub-parser's
remainder and ok flag unchanged. -/
def As (outType : String) (parser : Parser) : Parser := fun input =>
  match parser input with
  | ⟨parserNode, parserRest, parserOk⟩ => ⟨some (.mk outType [parserNode] []), parserRest, parserOk⟩

/-- Rule enumerates the mutually recursive grammar functions of the Go
source. -/
inductive Rule where
  | Program
  | Declaration
  | VariableDeclaration
  | FunctionDeclaration
  | Expression
  | Sum
  | Multiplication
  | Unit
  | FunctionCall

/-- grammar is the mutually recursive grammar of the Go source, written as a
single function over a rule identifier with a fuel parameter that decreases
on every cross-rule call; fuel 0 is a failing parser (never reached from the
exported entry points on their budget, since each cycle through the rules
consumes at least one character). -/
def grammar : Nat → Rule → Parser
  | 0, _ => fun _ => ⟨none, [], false⟩
  | fuel + 1, r =>
    match r with
    | .Program =>
      Some "Lines"
        (ThenSkipping "Line" WS
          [Or [grammar fuel .Declaration, grammar fuel .Expression],
           LineDelim])
    | .Declaration =>
      Or [grammar fuel .VariableDeclaration, grammar fuel .FunctionDeclaration]
    | .VariableDeclaration =>
      ThenSkipping "VariableDeclaration" WS
        [Variable, Character '=', grammar fuel .Expression]
    | .FunctionDeclaration =>
      ThenSkipping "FunctionDeclaration" WS
        [Variable, Character '(',
         Some "Parameters" (ThenSkipping "Parameter" WS [Variable, ArguementDelimeter]),
         Character ')', Character '=', grammar fuel .Expression]
    | .Expression => As "Expression" (grammar fuel .Sum)
    | .Sum =>
      Or [ThenSkipping "Sum" WS
            [grammar fuel .Multiplication,
             AtLeast "Terms" 1 (ThenSkipping "Term" WS
               [Or [As "OpAdd" (Character '+'), As "OpMinus" (Character '-')],
                grammar fuel .Multiplication])],
          Skipping WS (grammar fuel .Multiplication)]
    | .Multiplication =>
      Or [ThenSkipping "Multiplication" WS
            [grammar fuel .Unit,
             AtLeast "Terms" 1 (ThenSkipping "Term" WS
               [Or [As "OpMult" (Character '*'), As "OpDiv" (Character '/')],
                grammar fuel .Unit])],
          Skipping WS (grammar fuel .Unit)]
    | .Unit =>
      Or [ThenSkipping "Unit" WS
            [Character '(', grammar fuel .Expression, Character ')'],
          Skipping WS (grammar fuel .FunctionCall),
          Skipping WS Variable,
          Skipping WS Number]
    | .FunctionCall =>
      ThenSkipping "FunctionCall" WS
        [Variable, Character '(',
         Some "Arguments" (ThenSkipping "Argument" WS [grammar fuel .Expression, ArguementDelimeter]),
         Character ')']

/-- fuelBound is the grammar-recursion budget used by the exported entry
points; each cycle through the grammar rules consumes at least one character,
and a chain of at most 16 cross-rule calls separates consecutive
consumptions, so this budget is ample for every input. -/
def fuelBound (input : Str) : Nat := 16 * (input.length + 1)

/-- Program is the Go program-level entry point `Program(input)`. -/
def Program : Parser := fun input => grammar (fuelBound input) .Program input

/-- Expression is the Go expression entry point `Expression(input)`. -/
def Expression : Parser := fun input => grammar (fuelBound input) .Expression input

/-- Arith packages the numeric operations that the Go evaluator performs on
`float64`.  Kernel-checkable IEEE floating point is unavailable, so the
number type is abstract: `zero` is Go's zero value (returned by map lookup
misses and the default evaluator branch), the four operators mirror
`+ - * /`, and `parseFloat` mirrors `strconv.ParseFloat` on the literals the
`Number` token can produce.  Exact-value claims instantiate it at ℚ. -/
structure Arith (α : Type) where
  zero : α
  add : α → α → α
  sub : α → α → α
  mul : α → α → α
  div : α → α → α
  parseFloat : Str → α

/-- MemoryFunction is the Go struct of the same name: ordered parameter
names plus the body expression subtree (a possibly-nil node pointer). -/
structure MemoryFunction where
  Parameters : List Str
  Expression : Option Node

/-- Memory is the Go struct of the same name; both Go maps are modelled as
association lists with overwrite-on-insert and first-match lookup. -/
structure Memory (α : Type) where
  Variables : List (Str × α)
  Functions : List (Str × MemoryFunction)

/-- mapLookup models Go map indexing without the zero-value default: it
returns `none` when the key is absent. -/
def mapLookup {β : Type} : List (Str × β) → Str → Option β
  | [], _ => none
  | (k, v) :: rest, key => if k = key then some v else mapLookup rest key

/-- mapInsert models Go map assignment: it overwrites the binding when the
key is present and appends it otherwise. -/
def mapInsert {β : Type} : List (Str × β) → Str → β → List (Str × β)
  | [], key, v => [(key, v)]
  | (k, w) :: rest, key, v =>
    if k = key then (key, v) :: rest else (k, w) :: mapInsert rest key v

/-- EvalErr enumerates the failure modes of the modelled evaluator.
`UndefinedFunction` is modelled from the spec (§7): the Go source looks a
missing function name up as the zero value and then dereferences its nil
`Expression` pointer, crashing the process; the spec prescribes surfacing
`UndefinedFunction(name)` instead.  `crash` models the remaining Go panics
(child index out of range or a nil child pointer dereference), and `noFuel`
models non-termination of the Go recursion (e.g. unbounded function-call
recursion), which the fuel parameter cuts off. -/
inductive EvalErr where
  | UndefinedFunction (name : Str)
  | crash
  | noFuel
deriving DecidableEq

/-- okChild dereferences a Go child pointer: a nil pointer is a panic,
modelled as `crash`. -/
def okChild : Option Node → Except EvalErr Node
  | some n => .ok n
  | none => .error .crash

/-- child models the Go expression `node.Children[i]` followed by a use of
the resulting pointer: index out of range and nil pointer both panic,
modelled as `crash`. -/
def child (node : Node) (i : Nat) : Except EvalErr Node :=
  match node.children.get? i with
  | some c => okChild c
  | none => .error .crash

/-- overlayParams models the Go loop binding argument `i` to parameter `i`
in the copied variable map: extra arguments (beyond the parameter list) are
ignored, and parameters without a matching argument keep whatever the copied
map already held. -/
def overlayParams {α : Type} : List Str → List α → List (Str × α) → List (Str × α)
  | _, [], vars => vars
  | [], _ :: _, vars => vars
  | p :: ps, a :: rest, vars => overlayParams ps rest (mapInsert vars p a)

/-- Eval is the Go evaluator `Eval(node, memory) float64`, with the numeric
type abstracted by `A : Arith α` and general recursion made total by a fuel
parameter (`noFuel` marks recursion the Go program would not return from).
Branch by branch it follows the Go switch on `node.Type`; the Go map copy
`variableCopy` of the caller's variable map is the identity on the pure
association-list value, and the function-lookup miss raises
`UndefinedFunction` as modelled from the spec (§7) where the Go source
nil-panics. -/
def Eval {α : Type} (A : Arith α) : Nat → Node → Memory α → Except EvalErr α
  | 0, _, _ => .error .noFuel
  | fuel + 1, node, memory =>
    match node.type with
    | "Expression" => do
      let c0 ← child node 0
      Eval A fuel c0 memory
    | "Sum" => do
      let c0 ← child node 0
      let c1 ← child node 1
      let first ← Eval A fuel c0 memory
      c1.children.foldlM (fun number sum => do
        let sum ← okChild sum
        let op ← child sum 0
        let operand ← child sum 1
        let v ← Eval A fuel operand memory
        if op.type = "OpAdd" then pure (A.add number v) else pure (A.sub number v)) first
    | "Multiplication" => do
      let c0 ← child node 0
      let c1 ← child node 1
      let first ← Eval A fuel c0 memory
      c1.children.foldlM (fun number mult => do
        let mult ← okChild mult
        let op ← child mult 0
        let operand ← child mult 1
        let v ← Eval A fuel operand memory
        if op.type = "OpMult" then pure (A.mul number v) else pure (A.div number v)) first
    | "Unit" => do
      let c1 ← child node 1
      Eval A fuel c1 memory
    | "Number" => pure (A.parseFloat node.value)
    | "Variable" => pure ((mapLookup memory.Variables node.value).getD A.zero)
    | "FunctionCall" => do
      let c0 ← child node 0
      let function ← match mapLookup memory.Functions c0.value with
        | some f => pure f
        | none => Except.error (.UndefinedFunction c0.value)
      let c2 ← child node 2
      let arguments ← c2.children.mapM (fun argument => do
        let argument ← okChild argument
        let e ← child argument 0
        Eval A fuel e memory)
      let variableCopy := memory.Variables
      let scopeVars := overlayParams function.Parameters arguments variableCopy
      let fexpr ← okChild function.Expression
      Eval A fuel fexpr (Memory.mk scopeVars memory.Functions)
    | _ => pure A.zero

end PC

namespace PC

/-- LineResult is the spec's per-line execution event (§6): an assignment
echo, an expression value, or — modelled from the spec (§7) — an error event
that aborts the line but not the remaining lines (the Go source would print
the first two and crash on the third). -/
inductive LineResult (α : Type) where
  | Assignment (name : Str) (value : α)
  | Value (value : α)
  | LineError (e : EvalErr)
deriving DecidableEq

/-- execLine is one iteration of the Go `Exec` loop, given the
`line := node.Children[0]` node: it returns the optional line event and the
updated memory.  Variable declarations evaluate the right-hand side against
the current memory and assign; expression lines evaluate and report;
function declarations register parameter names and the body subtree without
evaluating; any other tag does nothing.  Evaluation errors are reported as
`LineError` events that leave the memory unchanged, modelled from the spec
(§7: an error aborts that line's result but not the remaining lines, where
the Go source would crash). -/
def execLine {α : Type} (A : Arith α) (fuel : Nat) (line : Node) (memory : Memory α) :
    Option (LineResult α) × Memory α :=
  match line.type with
  | "VariableDeclaration" =>
    match child line 0, child line 2 with
    | .ok nameNode, .ok expr =>
      match Eval A fuel expr memory with
      | .ok v =>
        (some (.Assignment nameNode.value v),
         Memory.mk (mapInsert memory.Variables nameNode.value v) memory.Functions)
      | .error e => (some (.LineError e), memory)
    | _, _ => (some (.LineError .crash), memory)
  | "Expression" =>
    match Eval A fuel line memory with
    | .ok v => (some (.Value v), memory)
    | .error e => (some (.LineError e), memory)
  | "FunctionDeclaration" =>
    match (do
      let nameNode ← child line 0
      let paramsNode ← child line 2
      let expr ← child line 5
      let parameters ← paramsNode.children.mapM (fun parameter => do
        let parameter ← okChild parameter
        let c0 ← child parameter 0
        pure c0.value)
      pure (nameNode.value, parameters, expr) : Except EvalErr (Str × List Str × Node)) with
    | .ok (name, parameters, expr) =>
      (none,
       Memory.mk memory.Variables
         (mapInsert memory.Functions name (MemoryFunction.mk parameters (some expr))))
    | .error e => (some (.LineError e), memory)
  | _ => (none, memory)

/-- execLines folds `execLine` over the program's `Lines` children in source
order, threading the memory and collecting the emitted events. -/
def execLines {α : Type} (A : Arith α) (fuel : Nat) :
    List (Option Node) → Memory α → List (LineResult α)
  | [], _ => []
  | lineNode :: rest, memory =>
    match (do
      let n ← okChild lineNode
      child n 0 : Except EvalErr Node) with
    | .ok line =>
      match execLine A fuel line memory with
      | (some r, memory1) => r :: execLines A fuel rest memory1
      | (none, memory1) => execLines A fuel rest memory1
    | .error e => .LineError e :: execLines A fuel rest memory

/-- Exec is the Go `Exec(program)`: it creates one fresh empty memory and
processes the program's lines in source order against it. -/
def Exec {α : Type} (A : Arith α) (fuel : Nat) (program : Node) : List (LineResult α) :=
  execLines A fuel program.children (Memory.mk [] [])

/-- digitsToNat reads a digit string as a natural number. -/
def digitsToNat (s : Str) : Nat :=
  s.foldl (fun n c => n * 10 + (c.toNat - '0'.toNat)) 0

/-- parseIntQ models `strconv.ParseFloat` on the integer literals the
`Number` token produces (`-?[0-9]+`), exactly representable in ℚ. -/
def parseIntQ : Str → ℚ
  | '-' :: rest => -(digitsToNat rest : ℚ)
  | s => (digitsToNat s : ℚ)

/-- QA interprets the evaluator's abstract arithmetic in ℚ, which represents
the Go `float64` operations exactly on the values the verified test inputs
produce. -/
def QA : Arith ℚ where
  zero := 0
  add := fun a b => a + b
  sub := fun a b => a - b
  mul := fun a b => a * b
  div := fun a b => a / b
  parseFloat := parseIntQ

/-- execute is the end-to-end pipeline: parse the program text with the Go
entry point `Program` and run `Exec` on the resulting tree (an empty event
list when the parser returns no tree). -/
def execute {α : Type} (A : Arith α) (fuel : Nat) (input : Str) : List (LineResult α) :=
  match (Program input).node with
  | some program => Exec A fuel program
  | none => []

end PC

namespace PC

/-- ofS converts a Lean string literal to the `Str` model of Go strings. -/
def ofS (s : String) : Str := s.toList

/-- callF9 is the FunctionCall node that the grammar produces for the call
text `f(9)`: children are the callee Variable leaf, the two parenthesis
Char leaves and the Arguments node, whose single Argument child wraps the
argument Expression and its (empty) argument delimiter. -/
def callF9 : Node :=
  .mk "FunctionCall"
    [some (.mk "Variable" [] ['f']),
     some (.mk "Char" [] ['(']),
     some (.mk "Arguments"
       [some (.mk "Argument"
         [some (.mk "Expression" [some (.mk "Number" [] ['9'])] []),
          some (.mk "ArgumentDelimeter" [] [])] [])] []),
     some (.mk "Char" [] [')'])] []

/-- lineF9 is the Expression node the grammar produces for the line `f(9)`. -/
def lineF9 : Node := .mk "Expression" [some callF9] []

/-- multX2 is the Multiplication node the grammar produces for `x*2`. -/
def multX2 : Node :=
  .mk "Multiplication"
    [some (.mk "Variable" [] ['x']),
     some (.mk "Terms"
       [some (.mk "Term"
         [some (.mk "OpMult" [some (.mk "Char" [] ['*'])] []),
          some (.mk "Number" [] ['2'])] [])] [])] []

/-- bodyX2 is the Expression node the grammar produces for `x*2`, the body
stored when `f(x)=x*2` is declared (a FunctionDeclaration stores its sixth
child, the body Expression node). -/
def bodyX2 : Node := .mk "Expression" [some multX2] []

/-- divExpr is the Expression node the grammar produces for `1/0`. -/
def divExpr : Node :=
  .mk "Expression"
    [some (.mk "Multiplication"
      [some (.mk "Number" [] ['1']),
       some (.mk "Terms"
         [some (.mk "Term"
           [some (.mk "OpDiv" [some (.mk "Char" [] ['/'])] []),
            some (.mk "Number" [] ['0'])] [])] [])] [])] []

/-- linesOnePlus is the tree the program entry point produces for the
input `1+`: one line holding the expression `1`, with nothing for the
trailing `+`. -/
def linesOnePlus : Node :=
  .mk "Lines"
    [some (.mk "Line"
      [some (.mk "Expression" [some (.mk "Number" [] ['1'])] []),
       some (.mk "Whitespace" [] [])] [])] []

/-- FailClean states the failure contract the combinators actually satisfy:
a failing parse returns no node and the empty string as the remainder
(the Go failure triple is `nil, "", false`). -/
def FailClean (p : Parser) : Prop :=
  ∀ s : Str, (p s).ok = false → (p s).node = none ∧ (p s).rest = []

/-- FailRestEmpty is the remainder half of the failure contract, satisfied
also by the `As`-wrapped grammar rules whose failure node is not nil. -/
def FailRestEmpty (p : Parser) : Prop :=
  ∀ s : Str, (p s).ok = false → (p s).rest = []

/-- StrictConsume holds of parsers whose every success consumes at least one
character; the repetition combinators terminate on such sub-parsers. -/
def StrictConsume (p : Parser) : Prop :=
  ∀ s : Str, (p s).ok = true → (p s).rest.length < s.length

/-- Iterates p s cs r states that repeatedly applying `p` from input `s`
yields the successive success nodes `cs` in order and stops at remainder `r`,
where `p` fails; it is the specification of the repetition loop of `Some`. -/
inductive Iterates (p : Parser) : Str → List (Option Node) → Str → Prop where
  | stop (s : Str) : (p s).ok = false → Iterates p s [] s
  | step (s : Str) (cs : List (Option Node)) (r : Str) : (p s).ok = true →
      Iterates p (p s).rest cs r → Iterates p s ((p s).node :: cs) r

end PC

namespace PC

theorem failClean_Digit : FailClean Digit := by
  intro s
  unfold Digit
  split <;> first | simp | (split <;> simp)

theorem failClean_Character (chr : Char) : FailClean (Character chr) := by
  intro s
  unfold Character
  split <;> first | simp | (split <;> simp)

theorem failClean_Number : FailClean Number := by
  intro s
  unfold Number
  split <;> (split <;> simp)

theorem failClean_Variable : FailClean Variable := by
  intro s
  unfold Variable
  split
  · split <;> simp
  · simp

theorem failClean_ArguementDelimeter : FailClean ArguementDelimeter := by
  intro s
  unfold ArguementDelimeter
  split <;> simp

theorem ws_shape (s : Str) :
    WS s = ⟨some (.mk "Whitespace" [] (spanList (fun c => c = ' ') s).1),
      (spanList (fun c => c = ' ') s).2, true⟩ := rfl

theorem failClean_WS : FailClean WS := by
  intro s h
  rw [ws_shape] at h
  simp at h

theorem lineDelim_shape (s : Str) :
    LineDelim s = ⟨some (.mk "Whitespace" [] (spanList (fun c => c = '\n' ∨ c = ';') s).1),
      (spanList (fun c => c = '\n' ∨ c = ';') s).2, true⟩ := rfl

theorem failClean_LineDelim : FailClean LineDelim := by
  intro s h
  rw [lineDelim_shape] at h
  simp at h

theorem failClean_Some (outType : String) (p : Parser) : FailClean (Some outType p) := by
  intro s
  unfold Some
  split <;> simp

theorem failClean_AtLeast (outType : String) (minimum : Nat) (p : Parser) :
    FailClean (AtLeast outType minimum p) := by
  intro s
  unfold AtLeast
  split
  · split <;> simp
  · simp

theorem failClean_Or (parsers : List Parser) : FailClean (Or parsers) := by
  induction parsers with
  | nil => intro s h; exact ⟨rfl, rfl⟩
  | cons p ps ih =>
    intro s
    rcases hps : p s with ⟨n, r, ok⟩
    have hOr : Or (p :: ps) s = match p s with
      | ⟨parserNode, parserRest, true⟩ => ⟨parserNode, parserRest, true⟩
      | ⟨_, _, false⟩ => Or ps s := rfl
    rw [hOr, hps]
    cases ok with
    | true => simp
    | false => exact ih s

theorem failClean_Then (outType : String) (parsers : List Parser) :
    FailClean (Then outType parsers) := by
  intro s
  unfold Then
  split <;> simp

theorem failClean_ThenSkipping (outType : String) (skip : Parser) (parsers : List Parser) :
    FailClean (ThenSkipping outType skip parsers) := by
  intro s
  unfold ThenSkipping
  split <;> simp

theorem failClean_Skipping (skip p : Parser) (hp : FailClean p) : FailClean (Skipping skip p) := by
  intro s
  unfold Skipping
  split
  · exact hp _
  · exact hp _

theorem as_fail (outType : String) (p : Parser) (s : Str) (h : ((As outType p) s).ok = false) :
    ((As outType p) s).node = some (.mk outType [(p s).node] []) ∧
      ((As outType p) s).rest = (p s).rest := by
  rcases hps : p s with ⟨n, r, ok⟩
  simp only [As, hps] at h ⊢
  cases ok with
  | true => simp at h
  | false => simp

theorem failRestEmpty_As (outType : String) (p : Parser) (hp : FailRestEmpty p) :
    FailRestEmpty (As outType p) := by
  intro s h
  rcases hps : p s with ⟨n, r, ok⟩
  simp only [As, hps] at h ⊢
  cases ok with
  | true => simp at h
  | false =>
    have h3 := hp s (by rw [hps])
    rw [hps] at h3
    exact h3

theorem or_fail_head (p : Parser) (ps : List Parser) (s : Str) (h : (p s).ok = false) :
    Or (p :: ps) s = Or ps s := by
  rcases hps : p s with ⟨n, r, ok⟩
  have hOr : Or (p :: ps) s = match p s with
    | ⟨parserNode, parserRest, true⟩ => ⟨parserNode, parserRest, true⟩
    | ⟨_, _, false⟩ => Or ps s := rfl
  rw [hps] at h
  rw [hOr, hps]
  cases ok with
  | true => simp at h
  | false => rfl

theorem failRestEmpty_grammar (fuel : Nat) (r : Rule) : FailRestEmpty (grammar fuel r) := by
  induction fuel generalizing r with
  | zero => intro s h; rfl
  | succ fuel ih =>
    cases r with
    | Program => exact fun s h => (failClean_Some _ _ s h).2
    | Declaration => exact fun s h => (failClean_Or _ s h).2
    | VariableDeclaration => exact fun s h => (failClean_ThenSkipping _ _ _ s h).2
    | FunctionDeclaration => exact fun s h => (failClean_ThenSkipping _ _ _ s h).2
    | Expression => exact failRestEmpty_As _ _ (ih .Sum)
    | Sum => exact fun s h => (failClean_Or _ s h).2
    | Multiplication => exact fun s h => (failClean_Or _ s h).2
    | Unit => exact fun s h => (failClean_Or _ s h).2
    | FunctionCall => exact fun s h => (failClean_ThenSkipping _ _ _ s h).2

theorem someLoop_run (p : Parser) (hp : StrictConsume p) :
    ∀ fuel s, s.length < fuel → ∀ acc, ∃ cs r, Iterates p s cs r ∧
      someLoop p fuel acc s = some (acc ++ cs, r) := by
  intro fuel
  induction fuel with
  | zero => intro s h; omega
  | succ fuel ih =>
    intro s hlen acc
    have hL : someLoop p (fuel + 1) acc s = match p s with
      | ⟨parserNode, parserRest, true⟩ => someLoop p fuel (acc ++ [parserNode]) parserRest
      | ⟨_, _, false⟩ => some (acc, s) := rfl
    rcases hps : p s with ⟨n, rr, ok⟩
    rw [hps] at hL
    cases ok with
    | false =>
      refine ⟨[], s, .stop s (by rw [hps]), ?_⟩
      rw [hL]
      show some (acc, s) = some (acc ++ [], s)
      simp
    | true =>
      have hlt : rr.length < s.length := by
        have h2 := hp s (by rw [hps])
        rw [hps] at h2
        exact h2
      obtain ⟨cs, r, hit, heq⟩ := ih rr (by omega) (acc ++ [n])
      refine ⟨n :: cs, r, ?_, ?_⟩
      · have hstep := Iterates.step (p := p) s cs r (by rw [hps]) (by rw [hps]; exact hit)
        rwa [hps] at hstep
      · rw [hL]
        show someLoop p fuel (acc ++ [n]) rr = some (acc ++ n :: cs, r)
        rw [heq]
        simp

theorem atLeastLoop_run (p : Parser) (hp : StrictConsume p) :
    ∀ fuel s, s.length < fuel → ∀ num acc, (atLeastLoop p fuel num acc s).isSome = true := by
  intro fuel
  induction fuel with
  | zero => intro s h; omega
  | succ fuel ih =>
    intro s hlen num acc
    have hL : atLeastLoop p (fuel + 1) num acc s = match p s with
      | ⟨parserNode, parserRest, true⟩ => atLeastLoop p fuel (num + 1) (acc ++ [parserNode]) parserRest
      | ⟨_, _, false⟩ => some (num, acc, s) := rfl
    rcases hps : p s with ⟨n, rr, ok⟩
    rw [hps] at hL
    cases ok with
    | false => rw [hL]; rfl
    | true =>
      have hlt : rr.length < s.length := by
        have h2 := hp s (by rw [hps])
        rw [hps] at h2
        exact h2
      rw [hL]
      show (atLeastLoop p fuel (num + 1) (acc ++ [n]) rr).isSome = true
      exact ih rr (by omega) (num + 1) (acc ++ [n])

theorem digit_strictConsume : StrictConsume Digit := by
  intro s h
  match s with
  | [] => simp [Digit] at h
  | c :: rest =>
    simp only [Digit] at h ⊢
    split at h <;> split <;> simp_all

theorem mapLookup_mapInsert_self {β : Type} (l : List (Str × β)) (k : Str) (v : β) :
    mapLookup (mapInsert l k v) k = some v := by
  induction l with
  | nil => simp [mapInsert, mapLookup]
  | cons kv rest ih =>
    obtain ⟨k1, v1⟩ := kv
    by_cases h : k1 = k
    · simp [mapInsert, mapLookup, h]
    · simp [mapInsert, mapLookup, h, ih]

theorem except_bind_ok {ε α β : Type} (a : α) (k : α → Except ε β) :
    Except.bind (Except.ok a) k = k a := rfl

theorem eval_callF9_step (G : Nat) (mem : Memory ℚ) :
    Eval QA (G + 3) callF9 mem =
      match mapLookup mem.Functions ['f'] with
      | some fdef =>
        Except.bind (okChild fdef.Expression)
          (fun fexpr => Eval QA (G + 2) fexpr
            ⟨overlayParams fdef.Parameters [parseIntQ ['9']] mem.Variables, mem.Functions⟩)
      | none => Except.error (.UndefinedFunction ['f']) := rfl

theorem eval_callF9_found (G : Nat) (mem : Memory ℚ) (fdef : MemoryFunction)
    (hf : mapLookup mem.Functions ['f'] = some fdef) :
    Eval QA (G + 3) callF9 mem =
      Except.bind (okChild fdef.Expression)
        (fun fexpr => Eval QA (G + 2) fexpr
          ⟨overlayParams fdef.Parameters [parseIntQ ['9']] mem.Variables, mem.Functions⟩) := by
  rw [eval_callF9_step, hf]

theorem eval_bodyX2 (K : Nat) (vars : List (Str × ℚ)) (funcs : List (Str × MemoryFunction)) :
    Eval QA (K + 3) bodyX2 ⟨vars, funcs⟩ =
      .ok ((mapLookup vars ['x']).getD 0 * parseIntQ ['2']) := rfl

theorem execLine_lineF9_shape (fuel : Nat) (mem : Memory ℚ) :
    execLine QA fuel lineF9 mem = match Eval QA fuel lineF9 mem with
      | .ok v => (some (.Value v), mem)
      | .error e => (some (.LineError e), mem) := by
  unfold execLine
  split
  · next heq => exact absurd heq (by decide)
  · split <;> rename_i heq <;> rw [heq]
  · next heq => exact absurd heq (by decide)
  · next h1 h2 h3 => exact absurd rfl h2

end PC

namespace PC

/-- C1: the claim states that parse("1+") yields success=false with no
partial AST.  Counterexample: the program entry point returns success=true
with a partial tree — the outermost rule (zero-or-more lines) never fails;
it consumes "1" as one expression line and leaves "+" unconsumed. -/
theorem c1_parse_one_plus_cex :
    (Program (ofS "1+")).ok = true ∧ (Program (ofS "1+")).rest = ['+'] ∧
      (Program (ofS "1+")).node.isSome = true := by decide

/-- C1 (amended): parse("1+") succeeds: the Lines rule consumes the single
expression line `1`, returns the one-line tree and reports the malformed
tail "+" as the unconsumed remainder; the program-level parse never returns
success=false. -/
theorem c1_program_one_plus :
    Program (ofS "1+") = ⟨some linesOnePlus, ['+'], true⟩ := rfl

/-- C2: the claim states that every failing engine parser returns the
original input untouched.  Counterexample: Character 'a' applied to "b"
fails with the empty string as the remainder, not the original input. -/
theorem c2_failure_rest_cex :
    ((Character 'a') (ofS "b")).ok = false ∧
      ((Character 'a') (ofS "b")).rest ≠ ofS "b" := by decide

/-- C2 (amended): on failure every engine parser returns no node and the
empty string as the remainder (the Go triple nil, "", false) — not the
original input — except the As wrapper, which returns a node carrying its
tag whose sole child is the failed sub-parser's nil result, at the
sub-parser's returned remainder; every grammar rule also fails with the
empty remainder; ordered choice still retries the remaining alternatives
from the same starting position because Or applies each alternative to its
own saved input, ignoring a failed alternative's returned remainder. -/
theorem c2_failure_contract :
    FailClean Digit ∧
    (∀ c, FailClean (Character c)) ∧
    FailClean Number ∧
    FailClean Variable ∧
    FailClean ArguementDelimeter ∧
    FailClean WS ∧
    FailClean LineDelim ∧
    (∀ t p, FailClean (Some t p)) ∧
    (∀ t m p, FailClean (AtLeast t m p)) ∧
    (∀ ps, FailClean (Or ps)) ∧
    (∀ t ps, FailClean (Then t ps)) ∧
    (∀ t sk ps, FailClean (ThenSkipping t sk ps)) ∧
    (∀ sk p, FailClean p → FailClean (Skipping sk p)) ∧
    (∀ t p s, ((As t p) s).ok = false →
      ((As t p) s).node = some (.mk t [(p s).node] []) ∧
        ((As t p) s).rest = (p s).rest) ∧
    (∀ fuel r, FailRestEmpty (grammar fuel r)) ∧
    (∀ p ps s, (p s).ok = false → Or (p :: ps) s = Or ps s) :=
  ⟨failClean_Digit, failClean_Character, failClean_Number, failClean_Variable,
   failClean_ArguementDelimeter, failClean_WS, failClean_LineDelim,
   failClean_Some, failClean_AtLeast, failClean_Or, failClean_Then,
   failClean_ThenSkipping, failClean_Skipping, as_fail, failRestEmpty_grammar,
   or_fail_head⟩

/-- C2 witness: the failure contract applied at concrete inputs: the
Skipping combinator over Digit fails clean on "a" (its hypothesis discharged
by the Digit component), the As wrapper on a failing Character keeps a
tagged node, and Or drops a failing first alternative. -/
theorem c2_failure_contract_witness :
    (((Skipping WS Digit) (ofS "a")).node = none ∧
      ((Skipping WS Digit) (ofS "a")).rest = []) ∧
    ((As "T" (Character 'x')) (ofS "y")).node = some (.mk "T" [none] []) ∧
    Or [Character 'a', Digit] (ofS "b") = Or [Digit] (ofS "b") := by
  have h := c2_failure_contract
  have hsk := h.2.2.2.2.2.2.2.2.2.2.2.2.1 WS Digit h.1 (ofS "a") (by decide)
  have has := h.2.2.2.2.2.2.2.2.2.2.2.2.2.1 "T" (Character 'x') (ofS "y") (by decide)
  have hor := h.2.2.2.2.2.2.2.2.2.2.2.2.2.2.2 (Character 'a') [Digit] (ofS "b") (by decide)
  exact ⟨hsk, has.1, hor⟩

/-- C3: the claim states that executing "f()=g();g()=1;f()" fails with
UndefinedFunction("g") at the call to f.  Counterexample: the call f() sits
on the third line, after the line declaring g has been processed, so the
lookup of g succeeds and the program reports the value 1. -/
theorem c3_forward_ref_cex :
    execute QA 100 (ofS "f()=g();g()=1;f()") = [.Value 1] := by
  with_unfolding_all decide

/-- C3 (amended): the function mapping is populated in line order, so a call
sees exactly the declarations of the lines processed before it: in
"f()=g();g()=1;f()" the call f() on line 3 finds g (declared on line 2) and
yields 1, while in "f()=g();f();g()=1" the call f() on line 2 fails with
UndefinedFunction("g") because g is declared only on line 3. -/
theorem c3_call_time_function_lookup :
    execute QA 100 (ofS "f()=g();g()=1;f()") = [.Value 1] ∧
    execute QA 100 (ofS "f()=g();f();g()=1") =
      [.LineError (.UndefinedFunction (ofS "g"))] := by
  with_unfolding_all decide

/-- C4: calling f(x)=x*2 with argument 9 while an outer variable x=5 exists
evaluates the body with x bound to 9 (the call returns 18, not 10), and the
caller's memory — in particular x=5 — is unchanged after the call, for every
caller memory containing that binding and that declaration; the end-to-end
program "x=5;f(x)=x*2;f(9);x" reports the assignment, the call result 18 and
the untouched outer value 5. -/
theorem c4_copy_on_call :
    (Expression (ofS "f(9)")).node = some lineF9 ∧
    (Expression (ofS "x*2")).node = some bodyX2 ∧
    (∀ mem : Memory ℚ, mapLookup mem.Variables ['x'] = some 5 →
      mapLookup mem.Functions ['f'] = some (.mk [['x']] (some bodyX2)) →
      Eval QA 20 lineF9 mem = .ok 18 ∧
      execLine QA 20 lineF9 mem = (some (.Value 18), mem) ∧
      mapLookup (execLine QA 20 lineF9 mem).2.Variables ['x'] = some 5) ∧
    execute QA 100 (ofS "x=5;f(x)=x*2;f(9);x") =
      [.Assignment ['x'] 5, .Value 18, .Value 5] := by
  refine ⟨rfl, rfl, ?_, by with_unfolding_all decide⟩
  intro mem hx hf
  have h1 : Eval QA 20 lineF9 mem = Eval QA (16 + 3) callF9 mem := rfl
  have h2 := eval_callF9_found 16 mem _ hf
  have ha : okChild ((MemoryFunction.mk [['x']] (some bodyX2)).Expression) =
      Except.ok bodyX2 := rfl
  rw [ha, except_bind_ok] at h2
  have hproj : (MemoryFunction.mk [['x']] (some bodyX2)).Parameters = [['x']] := rfl
  rw [hproj] at h2
  have hov : overlayParams [['x']] [parseIntQ ['9']] mem.Variables =
      mapInsert mem.Variables ['x'] (parseIntQ ['9']) := rfl
  rw [hov] at h2
  have hfuel : (16 + 2 : Nat) = 15 + 3 := rfl
  rw [hfuel] at h2
  have h3 := eval_bodyX2 15 (mapInsert mem.Variables ['x'] (parseIntQ ['9'])) mem.Functions
  rw [mapLookup_mapInsert_self] at h3
  have h9 : parseIntQ ['9'] = (9 : ℚ) := by with_unfolding_all decide
  have hq2 : parseIntQ ['2'] = (2 : ℚ) := by with_unfolding_all decide
  have hEv : Eval QA 20 lineF9 mem = .ok 18 := by
    rw [h1, h2, h3, h9, hq2]
    norm_num
  have hLine : execLine QA 20 lineF9 mem = (some (.Value 18), mem) := by
    rw [execLine_lineF9_shape, hEv]
  refine ⟨hEv, hLine, ?_⟩
  rw [hLine]
  exact hx

/-- C4 witness: the copy-on-call theorem applied at the concrete memory
holding exactly x=5 and the declaration f(x)=x*2, with argument 9. -/
theorem c4_copy_on_call_witness :
    Eval QA 20 lineF9 ⟨[(['x'], 5)], [(['f'], .mk [['x']] (some bodyX2))]⟩ = .ok 18 ∧
    execLine QA 20 lineF9 ⟨[(['x'], 5)], [(['f'], .mk [['x']] (some bodyX2))]⟩ =
      (some (.Value 18), ⟨[(['x'], 5)], [(['f'], .mk [['x']] (some bodyX2))]⟩) := by
  have h := c4_copy_on_call.2.2.1 ⟨[(['x'], 5)], [(['f'], .mk [['x']] (some bodyX2))]⟩ rfl rfl
  exact ⟨h.1, h.2.1⟩

/-- C5: parsing then evaluating yields 14 for "2+3*4", 20 for "(2+3)*4",
3 for "8-3-2" (left-associative subtraction) and 1 for "8/4/2"
(left-associative division), each as the single line result of the full
pipeline over exact rational arithmetic. -/
theorem c5_precedence_associativity :
    execute QA 100 (ofS "2+3*4") = [.Value 14] ∧
    execute QA 100 (ofS "(2+3)*4") = [.Value 20] ∧
    execute QA 100 (ofS "8-3-2") = [.Value 3] ∧
    execute QA 100 (ofS "8/4/2") = [.Value 1] := by
  with_unfolding_all decide

/-- C6: the claim states that the Some combinator succeeds for every
sub-parser and every input.  Counterexample: on the argument-delimiter
sub-parser (regex ",?"), which succeeds on the empty input while consuming
nothing, the Go repetition loop never terminates; the model's iteration
budget runs out and Some returns no success. -/
theorem c6_some_nonconsuming_cex :
    ((Some "T" ArguementDelimeter) []).ok = false ∧
    (ArguementDelimeter []).ok = true ∧ (ArguementDelimeter []).rest = [] := by decide

/-- C6 (amended): for every sub-parser that strictly consumes on success,
Some succeeds on every input: its children are exactly the successive
success nodes in order, its remainder is the one reached by the last
successful application (where the sub-parser fails), and zero matches give
an empty child list with remainder equal to the input. -/
theorem c6_some_repetition (p : Parser) (hp : StrictConsume p) (outType : String) (s : Str) :
    ∃ cs r, Iterates p s cs r ∧
      Some outType p s = ⟨some (.mk outType cs []), r, true⟩ ∧
      ((p s).ok = false → Some outType p s = ⟨some (.mk outType [] []), s, true⟩) := by
  obtain ⟨cs, r, hit, heq⟩ := someLoop_run p hp (s.length + 1) s (by omega) []
  have hS : Some outType p s = match someLoop p (s.length + 1) [] s with
    | some (children, rest) => ⟨some (.mk outType children []), rest, true⟩
    | none => ⟨none, [], false⟩ := rfl
  refine ⟨cs, r, hit, ?_, ?_⟩
  · rw [hS, heq]
    simp
  · intro h0
    have hL : someLoop p (s.length + 1) [] s = match p s with
      | ⟨parserNode, parserRest, true⟩ => someLoop p s.length ([] ++ [parserNode]) parserRest
      | ⟨_, _, false⟩ => some ([], s) := rfl
    rcases hps : p s with ⟨n, r2, ok⟩
    rw [hps] at hL h0
    cases ok with
    | true => simp at h0
    | false =>
      have hzero : someLoop p (s.length + 1) [] s = some ([], s) := by rw [hL]
      rw [hS, hzero]

/-- C6 witness: the characterization applied to the strictly consuming
Digit sub-parser on the input "12". -/
theorem c6_some_repetition_witness :
    ∃ cs r, Iterates Digit (ofS "12") cs r ∧
      Some "T" Digit (ofS "12") = ⟨some (.mk "T" cs []), r, true⟩ ∧
      ((Digit (ofS "12")).ok = false →
        Some "T" Digit (ofS "12") = ⟨some (.mk "T" [] []), ofS "12", true⟩) :=
  c6_some_repetition Digit digit_strictConsume "T" (ofS "12")

/-- C7: the evaluator does not special-case division by zero: evaluating the
parse of "1/0" applies the division operation directly — no zero test, no
error — and returns exactly what the arithmetic's division yields on the
parsed 1 and 0, for every interpretation of the float64 operations; the
platform floating-point result (infinity or NaN on IEEE hardware) is
propagated unchanged. -/
theorem c7_division_by_zero_propagates :
    (Expression (ofS "1/0")).node = some divExpr ∧
    ∀ (α : Type) (A : Arith α), Eval A 20 divExpr (Memory.mk [] []) =
      .ok (A.div (A.parseFloat ['1']) (A.parseFloat ['0'])) :=
  ⟨rfl, fun _ _ => rfl⟩

/-- C8: evaluating a Variable node whose name is absent from the variable
mapping returns 0 — the Go map zero value — with no failure, crash or error
report, for every memory and every fuel. -/
theorem c8_undefined_variable_zero (fuel : Nat) (mem : Memory ℚ) (name : Str)
    (h : mapLookup mem.Variables name = none) :
    Eval QA (fuel + 1) (.mk "Variable" [] name) mem = .ok 0 := by
  simp only [Eval, Node.type, Node.value, h]
  rfl

/-- C8 witness: the empty memory does not bind y; the Variable node y
evaluates to 0 there. -/
theorem c8_undefined_variable_zero_witness :
    Eval QA 1 (.mk "Variable" [] (ofS "y")) ⟨[], []⟩ = .ok 0 :=
  c8_undefined_variable_zero 0 ⟨[], []⟩ (ofS "y") rfl

/-- C9: when its sub-parser fails, the As combinator still returns a node
carrying the given tag whose sole child is the sub-parser's nil result,
together with the sub-parser's remainder and ok=false — never a nil node. -/
theorem c9_as_failure_keeps_node (outType : String) (p : Parser) (s : Str)
    (h : (p s).ok = false) :
    (As outType p) s = ⟨some (.mk outType [(p s).node] []), (p s).rest, false⟩ := by
  rcases hps : p s with ⟨n, r, ok⟩
  rw [hps] at h
  have hA : (As outType p) s = match p s with
    | ⟨parserNode, parserRest, parserOk⟩ =>
      ⟨some (.mk outType [parserNode] []), parserRest, parserOk⟩ := rfl
  rw [hA, hps]
  cases ok with
  | true => simp at h
  | false => rfl

/-- C9 witness: As "T" over the Digit parser on "a": Digit fails, and As
returns the "T"-tagged node with the nil child, empty remainder and
ok=false. -/
theorem c9_as_failure_keeps_node_witness :
    (As "T" Digit) (ofS "a") = ⟨some (.mk "T" [none] []), [], false⟩ :=
  c9_as_failure_keeps_node "T" Digit (ofS "a") (by decide)

/-- C10: for sub-parsers whose every success strictly consumes input, the
repetition loops of Some and AtLeast terminate within length+1 iterations —
the iteration budget, whose exhaustion models divergence of the Go loops, is
never hit — and Some returns successfully. -/
theorem c10_repetition_terminates (p : Parser) (hp : StrictConsume p) (s : Str) (num : Nat) :
    (someLoop p (s.length + 1) [] s).isSome = true ∧
    (atLeastLoop p (s.length + 1) num [] s).isSome = true ∧
    (∀ t, ((Some t p) s).ok = true) := by
  refine ⟨?_, atLeastLoop_run p hp (s.length + 1) s (by omega) num [], ?_⟩
  · obtain ⟨cs, r, hit, heq⟩ := someLoop_run p hp (s.length + 1) s (by omega) []
    rw [heq]
    rfl
  · intro t
    obtain ⟨cs, r, hit, heq⟩ := someLoop_run p hp (s.length + 1) s (by omega) []
    have hS : Some t p s = match someLoop p (s.length + 1) [] s with
      | some (children, rest) => ⟨some (.mk t children []), rest, true⟩
      | none => ⟨none, [], false⟩ := rfl
    rw [hS, heq]

/-- C10 witness: the Digit sub-parser strictly consumes; both repetition
loops terminate on the input "12" and Some succeeds there. -/
theorem c10_repetition_terminates_witness :
    (someLoop Digit ((ofS "12").length + 1) [] (ofS "12")).isSome = true ∧
    (atLeastLoop Digit ((ofS "12").length + 1) 0 [] (ofS "12")).isSome = true ∧
    (∀ t, ((Some t Digit) (ofS "12")).ok = true) :=
  c10_repetition_terminates Digit digit_strictConsume (ofS "12") 0

end PC
